import Mathlib

/-!
Verification of the fastNLP training harness (`fastNLP/action/trainer.py`).

The file embeds, as executable Lean definitions, the parts of the source the
claims are about: `BaseTrainer.pad`, the epoch/iteration structure of
`BaseTrainer.train`, the lazy loss binding of `BaseTrainer.get_loss`, the
unimplemented-hook behaviour of the abstract `BaseTrainer`, the state mutation
performed by the `POSTrainer` hooks, and the artifact paths read by
`prepare_input`.  Theorems about these definitions settle the claims.
-/

namespace FastNLP

/-! ### Padding: `BaseTrainer.pad` (trainer.py lines 200-212)

Python source:
```
max_length = max([len(x) for x in batch])
for idx, sample in enumerate(batch):
    if len(sample) < max_length:
        batch[idx] = sample + [fill * (max_length - len(sample))]
return batch
```
Note that the appended tail is the ONE-element list `[fill * deficit]`, not
`deficit` copies of `fill`.  `max` of an empty Python list raises `ValueError`,
so `pad` is modelled as `Option`-valued, `none` on the empty batch. -/

/-- `max([len(x) for x in batch])` for a nonempty `batch`
(Python's `max` as a left fold; the `0` seed is absorbed by any length). -/
def maxLen (batch : List (List Int)) : Nat :=
  (batch.map List.length).foldl Nat.max 0

/-- The loop body of `BaseTrainer.pad`, run on a batch whose `max_length`
computation has already succeeded: each sample shorter than `max_length` gets
the single element `fill * (max_length - len(sample))` appended. -/
def padCore (fill : Int) (batch : List (List Int)) : List (List Int) :=
  batch.map fun sample =>
    if sample.length < maxLen batch then
      sample ++ [fill * ((maxLen batch - sample.length : Nat) : Int)]
    else sample

/-- `BaseTrainer.pad(batch, fill)`.  On the empty batch the computation of
`max_length` fails (Python `ValueError`), modelled as `none`. -/
def pad (batch : List (List Int)) (fill : Int) : Option (List (List Int)) :=
  match batch with
  | [] => none
  | _ :: _ => some (padCore fill batch)

/-- The padding behaviour the spec describes (spec section 4.3): every sample is
extended on the right with `(max_length - len(sample))` COPIES of `fill`.
Kept only to exhibit the divergence of `pad` from the spec's words. -/
def padSpec (batch : List (List Int)) (fill : Int) : List (List Int) :=
  batch.map fun sample =>
    sample ++ List.replicate (maxLen batch - sample.length) fill

/-! #### Helper lemmas about `maxLen` and `padCore` -/

theorem foldl_max_all_eq (L : Nat) :
    ∀ l : List Nat, (∀ x ∈ l, x = L) → l.foldl Nat.max L = L := by
  intro l
  induction l with
  | nil => intro _; rfl
  | cons a t ih =>
    intro h
    have ha : a = L := h a (List.mem_cons_self a t)
    have ht : ∀ x ∈ t, x = L := fun x hx => h x (List.mem_cons_of_mem a hx)
    simp [List.foldl_cons, ha, Nat.max_self, ih ht]

theorem maxLen_uniform (batch : List (List Int)) (L : Nat)
    (hne : batch ≠ []) (hL : ∀ s ∈ batch, s.length = L) :
    maxLen batch = L := by
  cases batch with
  | nil => exact absurd rfl hne
  | cons b t =>
    have hb : b.length = L := hL b (List.mem_cons_self b t)
    have ht : ∀ x ∈ t.map List.length, x = L := by
      intro x hx
      rcases List.mem_map.mp hx with ⟨s, hs, rfl⟩
      exact hL s (List.mem_cons_of_mem b hs)
    simp only [maxLen, List.map_cons, List.foldl_cons, hb, Nat.zero_max]
    exact foldl_max_all_eq L (t.map List.length) ht

theorem map_id_of_fixed {α : Type} (f : α → α) :
    ∀ l : List α, (∀ a ∈ l, f a = a) → l.map f = l := by
  intro l
  induction l with
  | nil => intro _; rfl
  | cons a t ih =>
    intro h
    have ha : f a = a := h a (List.mem_cons_self a t)
    have ht : ∀ x ∈ t, f x = x := fun x hx => h x (List.mem_cons_of_mem a hx)
    simp [ha, ih ht]

theorem padCore_uniform (batch : List (List Int)) (fill : Int) (L : Nat)
    (hne : batch ≠ []) (hL : ∀ s ∈ batch, s.length = L) :
    padCore fill batch = batch := by
  unfold padCore
  apply map_id_of_fixed
  intro s hs
  have hmax : maxLen batch = L := maxLen_uniform batch L hne hL
  have hlen : s.length = L := hL s hs
  simp [hmax, hlen]

/-! #### Claims C1, C9, C10 about `pad` -/

/-- Claim C1 (code_bug evidence): `pad` does NOT extend every short sample to
the batch maximum with copies of the fill value.  On the batch
`[[5], [7,7,7]]` with fill `1` the source appends the single scalar
`fill * (max_length - len) = 1 * 2 = 2`, producing `[5, 2]` of length 2,
whereas the claim (and the source's own docstring "Pad a batch of samples to
maximum length", matched by `padSpec`) requires `[5, 1, 1]` of length 3. -/
theorem pad_appends_single_scalar_not_fill_copies :
    pad [[5], [7, 7, 7]] 1 = some [[5, 2], [7, 7, 7]] ∧
    List.map List.length [[5, 2], [7, 7, 7]] ≠ [3, 3] ∧
    padSpec [[5], [7, 7, 7]] 1 = [[5, 1, 1], [7, 7, 7]] := by
  refine ⟨by decide, by decide, by decide⟩

/-- Claim C9: on a non-empty batch whose samples all have one common length,
`pad` returns the batch unchanged, and applying `pad` a second time with the
same fill value gives the same result as applying it once. -/
theorem pad_uniform_unchanged_and_idempotent
    (batch : List (List Int)) (fill : Int) (L : Nat)
    (hne : batch ≠ []) (hL : ∀ s ∈ batch, s.length = L) :
    pad batch fill = some batch ∧
    (pad batch fill).bind (fun b => pad b fill) = pad batch fill := by
  have hcore : padCore fill batch = batch := padCore_uniform batch fill L hne hL
  cases batch with
  | nil => exact absurd rfl hne
  | cons b t =>
    constructor
    · simp [pad, hcore]
    · simp [pad, hcore]

/-- Witness for claim C9 at the concrete uniform-length batch
`[[1, 2], [3, 4]]` with fill value `7`. -/
theorem pad_uniform_unchanged_and_idempotent_witness :
    pad [[1, 2], [3, 4]] 7 = some [[1, 2], [3, 4]] ∧
    (pad [[1, 2], [3, 4]] 7).bind (fun b => pad b 7) = pad [[1, 2], [3, 4]] 7 :=
  pad_uniform_unchanged_and_idempotent [[1, 2], [3, 4]] 7 2 (by decide) (by decide)

/-- Claim C10: `pad` is undefined on the empty batch (the `max` over an empty
collection fails) and total on every non-empty batch. -/
theorem pad_empty_fails_nonempty_total :
    (∀ fill : Int, pad [] fill = none) ∧
    (∀ (batch : List (List Int)) (fill : Int),
      batch ≠ [] → (pad batch fill).isSome = true) := by
  constructor
  · intro fill; rfl
  · intro batch fill hne
    cases batch with
    | nil => exact absurd rfl hne
    | cons b t => simp [pad]

/-- Witness for claim C10: the empty batch fails, the batch `[[1], [2, 2]]`
succeeds. -/
theorem pad_empty_fails_nonempty_total_witness :
    pad [] 0 = none ∧ (pad [[1], [2, 2]] 0).isSome = true :=
  ⟨pad_empty_fails_nonempty_total.1 0,
   pad_empty_fails_nonempty_total.2 [[1], [2, 2]] 0 (by decide)⟩

/-! ### The training loop as an event trace: `BaseTrainer.train` (lines 50-105)

Python source (structure):
```
iterations = len(data_train) // self.batch_size
for epoch in range(1, self.n_epochs + 1):
    self.mode(test=False); self.define_optimizer(); self.iterator = ...
    for step in range(iterations):
        batch_x, batch_y = self.batchify(data_train)   # batch draw
        prediction = self.data_forward(network, batch_x)
        loss = self.get_loss(prediction, batch_y)
        self.grad_backward(loss)
        self.update()
    if self.validate:
        if data_dev is None: raise RuntimeError("No validation data provided.")
        validator.test(network)
        if self.save_best_dev and self.best_eval_result(validator):
            self.save_model(network)
```
The run is modelled as the list of observable events it performs together with
its outcome: the final running best accuracy, or the abort raised when
validation is requested without a dev set.  The per-epoch accuracy reported by
the external validator is a parameter `accOf : Nat → ℚ` (epoch number, starting
at 1, to reported accuracy), and the running best starts at `0`
(`POSTrainer.__init__` sets `self.best_accuracy = 0.0`); `best_eval_result`
returns true and updates the best exactly when `accuracy > best` (lines
330-336), and is consulted only when `save_best_dev` is set (line 98). -/

/-- Observable events of one training run. -/
inductive Event
  | batchDraw
  | forward
  | lossCalc
  | backward
  | update
  | modeSet
  | optimizerDef
  | validation
  | save
deriving DecidableEq

/-- The abort of `train`: `RuntimeError("No validation data provided.")`. -/
inductive TrainAbort
  | noValidationData
deriving DecidableEq

/-- Configuration keys of `BaseTrainer.__init__` that drive the loop shape. -/
structure TrainArgs where
  epochs : Nat
  batch_size : Nat
  validate : Bool
  save_best_dev : Bool

/-- The five events of one training step, in source order. -/
def stepEvents : List Event :=
  [Event.batchDraw, Event.forward, Event.lossCalc, Event.backward, Event.update]

/-- The events of one epoch before the validation block: mode switch, optimizer
definition, then `iterations` training steps. -/
def epochBody (iterations : Nat) : List Event :=
  Event.modeSet :: Event.optimizerDef :: (List.replicate iterations stepEvents).flatten

/-- The epoch loop of `train`, from epoch number `epoch` with `rem` epochs
remaining and running best `best`: produces the event trace and the outcome. -/
def runEpochsT (validate save_best devPresent : Bool) (iters : Nat)
    (accOf : Nat → ℚ) : Nat → Nat → ℚ → List Event × Except TrainAbort ℚ
  | _, 0, best => ([], Except.ok best)
  | epoch, rem + 1, best =>
    let pre := epochBody iters
    if validate then
      if devPresent then
        if save_best then
          if best < accOf epoch then
            let rest := runEpochsT validate save_best devPresent iters accOf
                (epoch + 1) rem (accOf epoch)
            (pre ++ Event.validation :: Event.save :: rest.1, rest.2)
          else
            let rest := runEpochsT validate save_best devPresent iters accOf
                (epoch + 1) rem best
            (pre ++ Event.validation :: rest.1, rest.2)
        else
          let rest := runEpochsT validate save_best devPresent iters accOf
              (epoch + 1) rem best
          (pre ++ Event.validation :: rest.1, rest.2)
      else (pre, Except.error TrainAbort.noValidationData)
    else
      let rest := runEpochsT validate save_best devPresent iters accOf
          (epoch + 1) rem best
      (pre ++ rest.1, rest.2)

/-- `BaseTrainer.train` over a training set of size `trainSize`:
`iterations = trainSize // batch_size` is computed once, then the epoch loop
runs for `args.epochs` epochs starting from running best `0`. -/
def trainT (args : TrainArgs) (trainSize : Nat) (devPresent : Bool)
    (accOf : Nat → ℚ) : List Event × Except TrainAbort ℚ :=
  runEpochsT args.validate args.save_best_dev devPresent
    (trainSize / args.batch_size) accOf 1 args.epochs 0

/-! #### Trace counting helpers -/

theorem count_join_replicate (e : Event) (l : List Event) :
    ∀ n : Nat, ((List.replicate n l).flatten.count e) = n * l.count e := by
  intro n
  induction n with
  | zero => simp
  | succ k ih =>
    simp [List.replicate_succ, List.flatten_cons, List.count_append, ih,
      Nat.succ_mul, Nat.add_comm]

theorem count_epochBody (e : Event) (iters : Nat) :
    (epochBody iters).count e =
      (if e = Event.modeSet then 1 else 0) +
      (if e = Event.optimizerDef then 1 else 0) + iters * stepEvents.count e := by
  cases e <;>
    simp [epochBody, List.count_cons, count_join_replicate, stepEvents]

/-! #### Claim C2: runs with validation disabled -/

theorem runEpochsT_no_validate (sbd devPresent : Bool) (iters : Nat)
    (accOf : Nat → ℚ) :
    ∀ (rem epoch : Nat) (best : ℚ),
      runEpochsT false sbd devPresent iters accOf epoch rem best =
        ((List.replicate rem (epochBody iters)).flatten, Except.ok best) := by
  intro rem
  induction rem with
  | zero => intro epoch best; rfl
  | succ k ih =>
    intro epoch best
    simp [runEpochsT, ih (epoch + 1) best, List.replicate_succ, List.flatten_cons]

/-- Claim C2: with validation disabled, a run over `N` samples with batch size
`B` and `E` epochs produces exactly the trace of `E` epochs of
`floor(N/B)` steps, each step being one batch draw, one forward, one loss, one
backward, one update in that order; it performs `E * (N / B)` training steps,
zero validation calls and zero persistence calls; in particular `E = 1`,
`B = 3`, `N = 20` gives exactly `6` steps. -/
theorem train_no_validate_step_count (E B N : Nat) (sbd devPresent : Bool)
    (accOf : Nat → ℚ) :
    (trainT ⟨E, B, false, sbd⟩ N devPresent accOf).1 =
      (List.replicate E (epochBody (N / B))).flatten ∧
    (trainT ⟨E, B, false, sbd⟩ N devPresent accOf).2 = Except.ok 0 ∧
    (trainT ⟨E, B, false, sbd⟩ N devPresent accOf).1.count Event.batchDraw =
      E * (N / B) ∧
    (trainT ⟨E, B, false, sbd⟩ N devPresent accOf).1.count Event.validation = 0 ∧
    (trainT ⟨E, B, false, sbd⟩ N devPresent accOf).1.count Event.save = 0 ∧
    (trainT ⟨1, 3, false, sbd⟩ 20 devPresent accOf).1.count Event.batchDraw = 6 := by
  have hrun := runEpochsT_no_validate sbd devPresent (N / B) accOf E 1 0
  have hrun1 := runEpochsT_no_validate sbd devPresent (20 / 3) accOf 1 1 0
  have hcount : ∀ (e : Event) (k m : Nat),
      ((List.replicate k (epochBody m)).flatten).count e =
        k * (epochBody m).count e := fun e k m => count_join_replicate e _ k
  refine ⟨?_, ?_, ?_, ?_, ?_, ?_⟩
  · simpa [trainT] using congrArg Prod.fst hrun
  · simpa [trainT] using congrArg Prod.snd hrun
  · have h1 := congrArg Prod.fst hrun
    simp only [trainT] at h1 ⊢
    rw [h1, hcount, count_epochBody]
    simp [stepEvents]
  · have h1 := congrArg Prod.fst hrun
    simp only [trainT] at h1 ⊢
    rw [h1, hcount, count_epochBody]
    simp [stepEvents]
  · have h1 := congrArg Prod.fst hrun
    simp only [trainT] at h1 ⊢
    rw [h1, hcount, count_epochBody]
    simp [stepEvents]
  · have h1 := congrArg Prod.fst hrun1
    simp only [trainT] at h1 ⊢
    rw [h1, hcount, count_epochBody]
    simp [stepEvents]

/-! #### Claim C3: validation enabled but dev set absent -/

/-- Claim C3: for a run of at least one epoch with validation enabled and the
dev set absent, the run aborts with the no-validation-data error, and its trace
contains no persistence (save) event, before or after the abort. -/
theorem train_validate_missing_dev_aborts (E B N : Nat) (sbd : Bool)
    (accOf : Nat → ℚ) (hE : 0 < E) :
    (trainT ⟨E, B, true, sbd⟩ N false accOf).2 =
      Except.error TrainAbort.noValidationData ∧
    (trainT ⟨E, B, true, sbd⟩ N false accOf).1.count Event.save = 0 := by
  obtain ⟨k, rfl⟩ : ∃ k, E = k + 1 := ⟨E - 1, (Nat.succ_pred_eq_of_pos hE).symm⟩
  constructor
  · simp [trainT, runEpochsT]
  · simp [trainT, runEpochsT, count_epochBody, stepEvents]

/-- Witness for claim C3 at `E = 1`, `B = 2`, `N = 4`, `save_best_dev = true`. -/
theorem train_validate_missing_dev_aborts_witness :
    (trainT ⟨1, 2, true, true⟩ 4 false (fun _ => 0)).2 =
      Except.error TrainAbort.noValidationData ∧
    (trainT ⟨1, 2, true, true⟩ 4 false (fun _ => 0)).1.count Event.save = 0 :=
  train_validate_missing_dev_aborts 1 2 4 true (fun _ => 0) (by decide)

/-! #### Claim C4: save-best-on-dev policy -/

/-- Number of persistence (save) calls performed by the epoch loop with
validation and save-best enabled, from epoch `epoch` with `rem` epochs left and
running best `best`: one save per epoch whose reported accuracy strictly
exceeds the running best at that point. -/
def saveCount (accOf : Nat → ℚ) : Nat → Nat → ℚ → Nat
  | _, 0, _ => 0
  | epoch, rem + 1, best =>
    if best < accOf epoch then 1 + saveCount accOf (epoch + 1) rem (accOf epoch)
    else saveCount accOf (epoch + 1) rem best

/-- Final running best after the epoch loop with validation and save-best
enabled: updated to the reported accuracy exactly on the epochs that save. -/
def bestFold (accOf : Nat → ℚ) : Nat → Nat → ℚ → ℚ
  | _, 0, best => best
  | epoch, rem + 1, best =>
    if best < accOf epoch then bestFold accOf (epoch + 1) rem (accOf epoch)
    else bestFold accOf (epoch + 1) rem best

theorem runEpochsT_save_best (iters : Nat) (accOf : Nat → ℚ) :
    ∀ (rem epoch : Nat) (best : ℚ),
      (runEpochsT true true true iters accOf epoch rem best).1.count Event.save =
        saveCount accOf epoch rem best ∧
      (runEpochsT true true true iters accOf epoch rem best).2 =
        Except.ok (bestFold accOf epoch rem best) := by
  intro rem
  induction rem with
  | zero => intro epoch best; exact ⟨rfl, rfl⟩
  | succ k ih =>
    intro epoch best
    by_cases h : best < accOf epoch
    · have := ih (epoch + 1) (accOf epoch)
      constructor
      · simp [runEpochsT, saveCount, h, List.count_append, List.count_cons,
          count_epochBody, stepEvents, this.1, Nat.add_comm]
      · simp [runEpochsT, bestFold, h, this.2]
    · have := ih (epoch + 1) best
      constructor
      · simp [runEpochsT, saveCount, h, List.count_append, List.count_cons,
          count_epochBody, stepEvents, this.1, Nat.add_comm]
      · simp [runEpochsT, bestFold, h, this.2]

/-- Claim C4 counterexample: the claim's final clause — under `save_best_dev`
with two consecutive epochs whose second accuracy strictly exceeds the first,
"the save after epoch-2 always occurs" — is false on the code.  With reported
accuracies `-1` then `-1/2` (so epoch-2 accuracy strictly exceeds epoch-1
accuracy), a two-epoch run with validation and save-best enabled performs zero
saves: neither accuracy exceeds the initial running best `0.0` set by
`POSTrainer.__init__`, so `best_eval_result` is false after both epochs. -/
theorem save_after_epoch2_can_fail :
    ((-1 : ℚ) < -(1 / 2)) ∧
    (trainT ⟨2, 1, true, true⟩ 1 true
        (fun n => if n = 1 then (-1 : ℚ) else -(1 / 2))).1.count Event.save = 0 := by
  constructor
  · norm_num
  · have h := runEpochsT_save_best 1
      (fun n => if n = 1 then (-1 : ℚ) else -(1 / 2)) 2 1 0
    have hs : saveCount (fun n => if n = 1 then (-1 : ℚ) else -(1 / 2)) 1 2 0 = 0 := by
      norm_num [saveCount]
    exact hs ▸ h.1

/-- Claim C4 (amended): for every run with validation and save-best enabled,
the model is persisted after an epoch exactly when the validator's reported
accuracy strictly exceeds the loop's running best (ties and decreases trigger
no save), and each save updates the running best to the new accuracy — stated
as: the number of save events equals `saveCount` and the final best equals
`bestFold`, both of which encode exactly the strictly-greater policy.  For two
consecutive epochs with `a1 < a2`: two saves occur in total only if `a1`
already improved on the initial best `0`, and the epoch-2 save occurs provided
`a2` exceeds the initial best `0` (in particular whenever the reported
accuracies are non-negative); it need not occur otherwise. -/
theorem save_policy_strict_improvement (E B N : Nat) (accOf : Nat → ℚ) :
    (trainT ⟨E, B, true, true⟩ N true accOf).1.count Event.save =
      saveCount accOf 1 E 0 ∧
    (trainT ⟨E, B, true, true⟩ N true accOf).2 =
      Except.ok (bestFold accOf 1 E 0) ∧
    (∀ a1 a2 : ℚ,
      (trainT ⟨2, B, true, true⟩ N true
          (fun n => if n = 1 then a1 else a2)).1.count Event.save =
        (if 0 < a1 then 1 else 0) +
          (if (if 0 < a1 then a1 else 0) < a2 then 1 else 0) ∧
      ((trainT ⟨2, B, true, true⟩ N true
          (fun n => if n = 1 then a1 else a2)).1.count Event.save = 2 → 0 < a1) ∧
      (a1 < a2 → 0 < a2 →
        (trainT ⟨2, B, true, true⟩ N true
            (fun n => if n = 1 then a1 else a2)).1.count Event.save =
          (if 0 < a1 then 1 else 0) + 1)) := by
  have hgen := runEpochsT_save_best (N / B) accOf E 1 0
  refine ⟨by simpa [trainT] using hgen.1, by simpa [trainT] using hgen.2, ?_⟩
  intro a1 a2
  have h2 := runEpochsT_save_best (N / B) (fun n => if n = 1 then a1 else a2) 2 1 0
  have hsc : saveCount (fun n => if n = 1 then a1 else a2) 1 2 0 =
      (if 0 < a1 then 1 else 0) +
        (if (if 0 < a1 then a1 else 0) < a2 then 1 else 0) := by
    by_cases h1 : 0 < a1
    · by_cases hb : a1 < a2 <;> simp [saveCount, h1, hb]
    · by_cases hb : (0 : ℚ) < a2 <;> simp [saveCount, h1, hb]
  have hcount : (trainT ⟨2, B, true, true⟩ N true
      (fun n => if n = 1 then a1 else a2)).1.count Event.save =
      (if 0 < a1 then 1 else 0) +
        (if (if 0 < a1 then a1 else 0) < a2 then 1 else 0) := by
    have := h2.1
    simp only [trainT] at *
    rw [this, hsc]
  refine ⟨hcount, ?_, ?_⟩
  · intro htwo
    rw [hcount] at htwo
    by_contra h1
    simp [h1] at htwo
    split at htwo <;> omega
  · intro hlt hpos
    rw [hcount]
    by_cases h1 : 0 < a1
    · have : a1 < a2 := hlt
      simp [h1, this]
    · have hb : (if 0 < a1 then a1 else 0) = 0 := by simp [h1]
      rw [hb]
      simp [hpos]

/-- Witness for claim C4 at `E = 2`, `B = 1`, `N = 1` and reported accuracies
`1/2` then `1`: both epochs improve strictly, so exactly two saves occur and
the final best is `1`. -/
theorem save_policy_strict_improvement_witness :
    (trainT ⟨2, 1, true, true⟩ 1 true
        (fun n => if n = 1 then (1 : ℚ) / 2 else 1)).1.count Event.save = 2 ∧
    (trainT ⟨2, 1, true, true⟩ 1 true
        (fun n => if n = 1 then (1 : ℚ) / 2 else 1)).2 = Except.ok 1 := by
  have h := save_policy_strict_improvement 2 1 1
      (fun n => if n = 1 then (1 : ℚ) / 2 else 1)
  constructor
  · rw [h.1]; norm_num [saveCount]
  · rw [h.2.1]; norm_num [bestFold]

/-! ### Trainer state across a run: `POSTrainer` hooks (lines 262-336)

`BaseTrainer.__init__` (lines 36-48) stores the configuration keys `epochs`,
`batch_size`, `pickle_path`, `validate`, `save_best_dev`, `model_saved_path`
on the trainer; `POSTrainer.__init__` adds `vocab_size`, `num_classes`,
`max_len`, `mask`, `best_accuracy`.  During a run the hooks mutate trainer
fields: `data_forward` assigns `self.batch_size = x.size(0)`,
`self.max_len = x.size(1)` and `self.mask` (lines 289-293), `get_loss` fills
`self.loss_func` lazily, `define_optimizer` sets `self.optimizer`,
`best_eval_result` updates `self.best_accuracy`.  The claim is that the
configuration fields keep their initial values through a whole run; the
delicate point is `data_forward`'s reassignment of `batch_size`, which always
receives the row count of the drawn batch. -/

/-- The trainer's attribute state (configuration keys first, mutable
training-state fields after). -/
structure POSState where
  n_epochs : Nat
  batch_size : Nat
  pickle_path : String
  validate : Bool
  save_best_dev : Bool
  model_saved_path : String
  vocab_size : Nat
  num_classes : Nat
  max_len : Option Nat
  mask : Option (List Nat)
  best_accuracy : ℚ
  loss_func : Option (Int → Int → Int)
  optimizer_defined : Bool

/-- Modelled from the spec: the `Batchifier` collaborator
(`fastNLP/action/action.py`, not included under `src/`).  Spec section 4.2:
group an ordered index sequence into chunks of up to `B` indices in order;
with `drop_last = true` (as `train` uses it, line 81) a final chunk shorter
than `B` is omitted, so exactly the full chunks of size `B` are produced. -/
def chunkFull (B : Nat) (l : List Nat) : List (List Nat) :=
  if _hc : 0 < B ∧ B ≤ l.length then
    l.take B :: chunkFull B (l.drop B)
  else []
termination_by l.length
decreasing_by
  simp only [List.length_drop]
  omega

theorem chunkFull_mem_length_aux (B : Nat) :
    ∀ (n : Nat) (l : List Nat), l.length ≤ n →
      ∀ c ∈ chunkFull B l, c.length = B := by
  intro n
  induction n with
  | zero =>
    intro l hl c hc
    rw [chunkFull] at hc
    split at hc
    · omega
    · exact absurd hc (List.not_mem_nil c)
  | succ k ih =>
    intro l hl c hc
    rw [chunkFull] at hc
    split at hc
    · rename_i h
      rcases List.mem_cons.mp hc with hc | hc
      · subst hc
        simp [List.length_take, Nat.min_eq_left h.2]
      · refine ih (l.drop B) ?_ c hc
        simp only [List.length_drop]
        omega
    · exact absurd hc (List.not_mem_nil c)

theorem chunkFull_mem_length (B : Nat) (l : List Nat) :
    ∀ c ∈ chunkFull B l, c.length = B :=
  chunkFull_mem_length_aux B l.length l (Nat.le_refl _)

/-- `POSTrainer.data_forward` (lines 283-295): records the sequence-length mask
(`seq_mask(seq_len, max_len)`, abstracted here as the length list itself) and
assigns `self.batch_size = x.size(0)` (the number of rows of the batch tensor)
and `self.max_len = x.size(1)` (the row length, abstracted as the maximum row
length).  The forward result itself lives in the external numeric backend. -/
def posDataForward (s : POSState) (x : List (List Int)) : POSState :=
  { s with batch_size := x.length,
           max_len := some ((x.map List.length).foldl Nat.max 0),
           mask := some (x.map List.length) }

/-- `POSTrainer.get_loss` (lines 313-328), state part: lazily install
`self.loss_func`, preferring the model's own `loss` attribute over the
trainer's `define_loss` default; the numeric loss value is external. -/
def posGetLoss (s : POSState) (modelLoss : Option (Int → Int → Int))
    (defaultLoss : Int → Int → Int) : POSState :=
  match s.loss_func with
  | some _ => s
  | none =>
    match modelLoss with
    | some f => { s with loss_func := some f }
    | none => { s with loss_func := some defaultLoss }

/-- `POSTrainer.define_optimizer` (lines 303-304): installs the SGD optimizer
(abstracted as a flag; the optimizer object is external). -/
def posDefineOptimizer (s : POSState) : POSState :=
  { s with optimizer_defined := true }

/-- One training step (`train` lines 84-91): `batchify` draws the next index
chunk, gathers the feature sequences, pads them with fill `0`
(`BaseTrainer.pad` default), then `data_forward` and `get_loss` run and mutate
the trainer state; `grad_backward` and `update` touch only the external model
and optimizer. -/
def posStep (data : List (List Int × List Int))
    (modelLoss : Option (Int → Int → Int)) (defaultLoss : Int → Int → Int)
    (s : POSState) (chunk : List Nat) : POSState :=
  let batch_x := padCore 0 (chunk.map fun i => (data.getD i ([], [])).1)
  posGetLoss (posDataForward s batch_x) modelLoss defaultLoss

/-- One epoch (`train` lines 79-103): mode switch (external), optimizer
definition, a fresh Batchifier pipeline with `drop_last = true` over a sampled
permutation `perm`, `iterations` training steps, then the validation block,
where `best_eval_result` (lines 330-336) updates `best_accuracy` exactly when
the reported accuracy strictly exceeds it and `save_model` touches no trainer
field. -/
def posEpoch (data : List (List Int × List Int))
    (modelLoss : Option (Int → Int → Int)) (defaultLoss : Int → Int → Int)
    (iterations : Nat) (acc : ℚ) (perm : List Nat) (s : POSState) : POSState :=
  let s1 := posDefineOptimizer s
  let s2 := ((chunkFull s1.batch_size perm).take iterations).foldl
    (posStep data modelLoss defaultLoss) s1
  if s2.validate then
    if s2.save_best_dev then
      if s2.best_accuracy < acc then { s2 with best_accuracy := acc } else s2
    else s2
  else s2

/-- A whole run of `train` with `POSTrainer` hooks: `iterations` is computed
once from the initial batch size (line 75), then one `posEpoch` per entry of
`epochs` (the per-epoch sampled permutation and reported dev accuracy). -/
def posTrain (data : List (List Int × List Int))
    (modelLoss : Option (Int → Int → Int)) (defaultLoss : Int → Int → Int)
    (epochs : List (List Nat × ℚ)) (s : POSState) : POSState :=
  let iterations := data.length / s.batch_size
  epochs.foldl
    (fun st pe => posEpoch data modelLoss defaultLoss iterations pe.2 pe.1 st) s

/-! #### Preservation lemmas for claim C5 -/

/-- `ConfigEq s s'` states that the six configuration fields of `s'` agree with
those of `s`. -/
def ConfigEq (s s' : POSState) : Prop :=
  s'.n_epochs = s.n_epochs ∧ s'.batch_size = s.batch_size ∧
  s'.pickle_path = s.pickle_path ∧ s'.validate = s.validate ∧
  s'.save_best_dev = s.save_best_dev ∧ s'.model_saved_path = s.model_saved_path

theorem configEq_refl (s : POSState) : ConfigEq s s :=
  ⟨rfl, rfl, rfl, rfl, rfl, rfl⟩

theorem configEq_trans {s t u : POSState} (h1 : ConfigEq s t)
    (h2 : ConfigEq t u) : ConfigEq s u :=
  ⟨h2.1.trans h1.1, h2.2.1.trans h1.2.1, h2.2.2.1.trans h1.2.2.1,
   h2.2.2.2.1.trans h1.2.2.2.1, h2.2.2.2.2.1.trans h1.2.2.2.2.1,
   h2.2.2.2.2.2.trans h1.2.2.2.2.2⟩

theorem posDataForward_config (s : POSState) (x : List (List Int))
    (hx : x.length = s.batch_size) : ConfigEq s (posDataForward s x) :=
  ⟨rfl, hx, rfl, rfl, rfl, rfl⟩

theorem posGetLoss_config (s : POSState) (modelLoss : Option (Int → Int → Int))
    (defaultLoss : Int → Int → Int) :
    ConfigEq s (posGetLoss s modelLoss defaultLoss) := by
  unfold posGetLoss
  cases s.loss_func with
  | some f => exact configEq_refl s
  | none =>
    cases modelLoss with
    | some f => exact ⟨rfl, rfl, rfl, rfl, rfl, rfl⟩
    | none => exact ⟨rfl, rfl, rfl, rfl, rfl, rfl⟩

theorem posStep_config (data : List (List Int × List Int))
    (modelLoss : Option (Int → Int → Int)) (defaultLoss : Int → Int → Int)
    (s : POSState) (chunk : List Nat) (hc : chunk.length = s.batch_size) :
    ConfigEq s (posStep data modelLoss defaultLoss s chunk) := by
  have hx : (padCore 0 (chunk.map fun i => (data.getD i ([], [])).1)).length =
      s.batch_size := by
    simp [padCore, hc]
  exact configEq_trans (posDataForward_config s _ hx)
    (posGetLoss_config (posDataForward s _) modelLoss defaultLoss)

theorem posSteps_config (data : List (List Int × List Int))
    (modelLoss : Option (Int → Int → Int)) (defaultLoss : Int → Int → Int) :
    ∀ (chunks : List (List Nat)) (s : POSState),
      (∀ c ∈ chunks, c.length = s.batch_size) →
      ConfigEq s (chunks.foldl (posStep data modelLoss defaultLoss) s) := by
  intro chunks
  induction chunks with
  | nil => intro s _; exact configEq_refl s
  | cons c t ih =>
    intro s hlen
    have hc : c.length = s.batch_size := hlen c (List.mem_cons_self c t)
    have hstep : ConfigEq s (posStep data modelLoss defaultLoss s c) :=
      posStep_config data modelLoss defaultLoss s c hc
    have hrest : ConfigEq (posStep data modelLoss defaultLoss s c)
        (t.foldl (posStep data modelLoss defaultLoss)
          (posStep data modelLoss defaultLoss s c)) := by
      apply ih
      intro d hd
      rw [hstep.2.1]
      exact hlen d (List.mem_cons_of_mem c hd)
    exact configEq_trans hstep
      (by simpa [List.foldl_cons] using hrest)

theorem posValidationTail_config (t : POSState) (acc : ℚ) :
    ConfigEq t (if t.validate = true then
      if t.save_best_dev = true then
        if t.best_accuracy < acc then { t with best_accuracy := acc } else t
      else t
    else t) := by
  by_cases hv : t.validate = true
  · rw [if_pos hv]
    by_cases hs : t.save_best_dev = true
    · rw [if_pos hs]
      by_cases hb : t.best_accuracy < acc
      · rw [if_pos hb]
        exact ⟨rfl, rfl, rfl, rfl, rfl, rfl⟩
      · rw [if_neg hb]
        exact configEq_refl t
    · rw [if_neg hs]
      exact configEq_refl t
  · rw [if_neg hv]
    exact configEq_refl t

theorem posEpoch_config (data : List (List Int × List Int))
    (modelLoss : Option (Int → Int → Int)) (defaultLoss : Int → Int → Int)
    (iterations : Nat) (acc : ℚ) (perm : List Nat) (s : POSState) :
    ConfigEq s (posEpoch data modelLoss defaultLoss iterations acc perm s) := by
  have h1 : ConfigEq s (posDefineOptimizer s) := ⟨rfl, rfl, rfl, rfl, rfl, rfl⟩
  have hchunks : ∀ c ∈ (chunkFull (posDefineOptimizer s).batch_size perm).take
      iterations, c.length = (posDefineOptimizer s).batch_size := by
    intro c hc
    exact chunkFull_mem_length (posDefineOptimizer s).batch_size perm c
      (List.take_subset iterations _ hc)
  have h2 := posSteps_config data modelLoss defaultLoss
    ((chunkFull (posDefineOptimizer s).batch_size perm).take iterations)
    (posDefineOptimizer s) hchunks
  have h12 := configEq_trans h1 h2
  exact configEq_trans h12
    (posValidationTail_config
      (((chunkFull (posDefineOptimizer s).batch_size perm).take iterations).foldl
        (posStep data modelLoss defaultLoss) (posDefineOptimizer s)) acc)

/-- Claim C5: a whole run of the training loop with the `POSTrainer` hooks
leaves every configuration field — epoch count, batch size, validation toggle,
best-model-saving toggle, and both storage paths — equal to its initial value,
for every dataset, model loss, per-epoch permutation and reported accuracy.
(`data_forward` does reassign `self.batch_size`, but always to the row count of
the drawn batch, which the `drop_last = true` batch pipeline fixes at the
configured batch size.) -/
theorem config_fields_constant_through_run (data : List (List Int × List Int))
    (modelLoss : Option (Int → Int → Int)) (defaultLoss : Int → Int → Int)
    (epochs : List (List Nat × ℚ)) (s : POSState) :
    (posTrain data modelLoss defaultLoss epochs s).n_epochs = s.n_epochs ∧
    (posTrain data modelLoss defaultLoss epochs s).batch_size = s.batch_size ∧
    (posTrain data modelLoss defaultLoss epochs s).pickle_path = s.pickle_path ∧
    (posTrain data modelLoss defaultLoss epochs s).validate = s.validate ∧
    (posTrain data modelLoss defaultLoss epochs s).save_best_dev =
      s.save_best_dev ∧
    (posTrain data modelLoss defaultLoss epochs s).model_saved_path =
      s.model_saved_path := by
  suffices h : ∀ (eps : List (List Nat × ℚ)) (it : Nat) (st : POSState),
      ConfigEq st (eps.foldl
        (fun acc pe => posEpoch data modelLoss defaultLoss it pe.2 pe.1 acc) st) by
    exact h epochs (data.length / s.batch_size) s
  intro eps
  induction eps with
  | nil => intro it st; exact configEq_refl st
  | cons pe t ih =>
    intro it st
    have h1 := posEpoch_config data modelLoss defaultLoss it pe.2 pe.1 st
    have h2 := ih it (posEpoch data modelLoss defaultLoss it pe.2 pe.1 st)
    exact configEq_trans h1 (by simpa [List.foldl_cons] using h2)

/-! ### Hook dispatch and lazy loss binding: `BaseTrainer` (lines 117-177)

The abstract `BaseTrainer` implements the hooks `mode`, `define_optimizer`,
`update`, `data_forward`, `grad_backward` and `define_loss` as bare
`raise NotImplementedError`; a concrete trainer overrides them.  A trainer's
hook table is modelled as a record of `Except`-valued operations: an
unoverridden hook is the base one, `Except.error HookError.notImplemented`.
`BaseTrainer.get_loss` (lines 158-170) lazily resolves `self.loss_func`:
```
if self.loss_func is None:
    if hasattr(self.model, "loss"): self.loss_func = self.model.loss
    else: self.define_loss()
return self.loss_func(predict, truth)
```
Predictions, truths and losses are abstracted as integers; a loss function is
`Int → Int → Int`. -/

/-- `raise NotImplementedError` from an unoverridden mandatory hook. -/
inductive HookError
  | notImplemented
deriving DecidableEq

/-- The hook table of a trainer: what each framework-specific operation does,
whether the model object exposes its own `loss` attribute, and what the
trainer's `define_loss` installs. -/
structure Hooks where
  mode : Except HookError Unit
  define_optimizer : Except HookError Unit
  data_forward : Except HookError Int
  grad_backward : Int → Except HookError Unit
  update : Except HookError Unit
  model_loss : Option (Int → Int → Int)
  define_loss : Except HookError (Int → Int → Int)

/-- The hook table of the abstract `BaseTrainer` itself: every mandatory hook
raises `NotImplementedError`, and the model is not assumed to expose `loss`. -/
def baseHooks : Hooks where
  mode := Except.error HookError.notImplemented
  define_optimizer := Except.error HookError.notImplemented
  data_forward := Except.error HookError.notImplemented
  grad_backward := fun _ => Except.error HookError.notImplemented
  update := Except.error HookError.notImplemented
  model_loss := none
  define_loss := Except.error HookError.notImplemented

/-- `BaseTrainer.get_loss(predict, truth)` with current `loss_func` state `lf`:
returns the resolved loss function (the new `self.loss_func`) and the loss
value, or the error of an unoverridden `define_loss`. -/
def get_lossE (h : Hooks) (lf : Option (Int → Int → Int)) (predict truth : Int) :
    Except HookError ((Int → Int → Int) × Int) :=
  match lf with
  | some f => Except.ok (f, f predict truth)
  | none =>
    match h.model_loss with
    | some f => Except.ok (f, f predict truth)
    | none =>
      match h.define_loss with
      | Except.ok f => Except.ok (f, f predict truth)
      | Except.error e => Except.error e

/-- One training step (`train` lines 84-91) at loss-state `lf`: forward, loss,
backward, update; returns the new `loss_func` state.  The batch draw and the
truth labels live outside the hook table; `truth` stands for `batch_y`. -/
def stepE (h : Hooks) (truth : Int) (lf : Option (Int → Int → Int)) :
    Except HookError (Option (Int → Int → Int)) :=
  match h.data_forward with
  | Except.error e => Except.error e
  | Except.ok p =>
    match get_lossE h lf p truth with
    | Except.error e => Except.error e
    | Except.ok fl =>
      match h.grad_backward fl.2 with
      | Except.error e => Except.error e
      | Except.ok _ =>
        match h.update with
        | Except.error e => Except.error e
        | Except.ok _ => Except.ok (some fl.1)

/-- `iters` consecutive training steps threading the `loss_func` state. -/
def stepsE (h : Hooks) (truth : Int) : Nat → Option (Int → Int → Int) →
    Except HookError (Option (Int → Int → Int))
  | 0, lf => Except.ok lf
  | n + 1, lf =>
    match stepE h truth lf with
    | Except.error e => Except.error e
    | Except.ok lf' => stepsE h truth n lf'

/-- One epoch (`train` lines 79-91): mode switch, optimizer definition, then
the training steps. -/
def epochE (h : Hooks) (truth : Int) (iters : Nat)
    (lf : Option (Int → Int → Int)) :
    Except HookError (Option (Int → Int → Int)) :=
  match h.mode with
  | Except.error e => Except.error e
  | Except.ok _ =>
    match h.define_optimizer with
    | Except.error e => Except.error e
    | Except.ok _ => stepsE h truth iters lf

/-- The whole epoch loop: `epochs` epochs of `iters` steps each, threading the
`loss_func` state; any raised `NotImplementedError` aborts the run. -/
def runHooks (h : Hooks) (truth : Int) (iters : Nat) :
    Nat → Option (Int → Int → Int) →
    Except HookError (Option (Int → Int → Int))
  | 0, lf => Except.ok lf
  | n + 1, lf =>
    match epochE h truth iters lf with
    | Except.error e => Except.error e
    | Except.ok lf' => runHooks h truth iters n lf'

/-! #### Claim C6: the loss function is resolved once and reused -/

/-- Claim C6: `get_loss` resolves the loss function at most once, at its first
call.  On the first call (state `none`) the model's own `loss` is adopted when
present, otherwise the trainer-supplied `define_loss` default is installed.
On every later call (state `some f`) the same resolved `f` is applied and
nothing is re-resolved: the result is independent of the hook table `h2`, and a
successful step started at state `some f` ends at state `some f`. -/
theorem loss_func_resolved_once (h h2 : Hooks) (p t p2 t2 : Int) :
    (∀ f, h.model_loss = some f →
      get_lossE h none p t = Except.ok (f, f p t)) ∧
    (∀ g, h.model_loss = none → h.define_loss = Except.ok g →
      get_lossE h none p t = Except.ok (g, g p t)) ∧
    (∀ f, get_lossE h2 (some f) p2 t2 = Except.ok (f, f p2 t2)) ∧
    (∀ f lf, stepE h2 t2 (some f) = Except.ok lf → lf = some f) := by
  refine ⟨?_, ?_, ?_, ?_⟩
  · intro f hf
    simp [get_lossE, hf]
  · intro g hm hd
    simp [get_lossE, hm, hd]
  · intro f
    simp [get_lossE]
  · intro f lf hstep
    cases hd : h2.data_forward with
    | error e => simp [stepE, hd, Bind.bind, Except.bind] at hstep
    | ok pv =>
      cases hg : h2.grad_backward (f pv t2) with
      | error e =>
        simp [stepE, hd, get_lossE, Except.bind, hg] at hstep
      | ok u =>
        cases hu : h2.update with
        | error e =>
          simp [stepE, hd, get_lossE, Except.bind, hg, hu] at hstep
        | ok u2 =>
          simp [stepE, hd, get_lossE, Except.bind, hg, hu] at hstep
          exact hstep.symm

/-- Witness for claim C6 with a model that exposes its own loss (adopted on the
first call) and with an already-resolved state (reused unchanged). -/
theorem loss_func_resolved_once_witness :
    get_lossE
      { baseHooks with model_loss := some (fun a b => a + b) } none 2 3 =
        Except.ok ((fun a b => a + b), 5) ∧
    get_lossE baseHooks (some (fun a b => a * b)) 4 5 =
        Except.ok ((fun a b => a * b), 20) := by
  have h := loss_func_resolved_once
    { baseHooks with model_loss := some (fun a b => a + b) } baseHooks 2 3 4 5
  constructor
  · have := h.1 (fun a b => a + b) rfl
    simpa using this
  · have := h.2.2.1 (fun a b => a * b)
    simpa using this

/-! #### Claim C7: unoverridden mandatory hooks abort at first invocation -/

/-- Claim C7: each of the six mandatory hooks — `mode`, `define_optimizer`,
`data_forward`, `grad_backward`, `update`, `define_loss` — has no default
behaviour: for any trainer whose hook table leaves one of them at the base
(unoverridden) implementation, the run aborts with `NotImplementedError` at
that hook's first invocation, as soon as the loop reaches it (the hooks
invoked before it succeeding); and the abstract `BaseTrainer` itself aborts
immediately. -/
theorem unoverridden_hook_aborts (h : Hooks) (truth : Int) (iters E : Nat)
    (lf : Option (Int → Int → Int)) :
    (h.mode = Except.error HookError.notImplemented →
      runHooks h truth iters (E + 1) lf =
        Except.error HookError.notImplemented) ∧
    (h.mode = Except.ok () →
     h.define_optimizer = Except.error HookError.notImplemented →
      runHooks h truth iters (E + 1) lf =
        Except.error HookError.notImplemented) ∧
    (h.mode = Except.ok () → h.define_optimizer = Except.ok () →
     h.data_forward = Except.error HookError.notImplemented →
      runHooks h truth (iters + 1) (E + 1) lf =
        Except.error HookError.notImplemented) ∧
    (∀ p, h.mode = Except.ok () → h.define_optimizer = Except.ok () →
     h.data_forward = Except.ok p →
     h.model_loss = none →
     h.define_loss = Except.error HookError.notImplemented →
      runHooks h truth (iters + 1) (E + 1) none =
        Except.error HookError.notImplemented) ∧
    (∀ p f, h.mode = Except.ok () → h.define_optimizer = Except.ok () →
     h.data_forward = Except.ok p →
     h.model_loss = some f →
     (∀ l, h.grad_backward l = Except.error HookError.notImplemented) →
      runHooks h truth (iters + 1) (E + 1) none =
        Except.error HookError.notImplemented) ∧
    (∀ p f, h.mode = Except.ok () → h.define_optimizer = Except.ok () →
     h.data_forward = Except.ok p →
     h.model_loss = some f →
     h.grad_backward (f p truth) = Except.ok () →
     h.update = Except.error HookError.notImplemented →
      runHooks h truth (iters + 1) (E + 1) none =
        Except.error HookError.notImplemented) ∧
    runHooks baseHooks truth iters (E + 1) lf =
      Except.error HookError.notImplemented := by
  refine ⟨?_, ?_, ?_, ?_, ?_, ?_, ?_⟩
  · intro hm
    simp [runHooks, epochE, hm, Bind.bind, Except.bind]
  · intro hm ho
    simp [runHooks, epochE, hm, ho, Bind.bind, Except.bind]
  · intro hm ho hd
    simp [runHooks, epochE, stepsE, stepE, hm, ho, hd, Bind.bind, Except.bind]
  · intro p hm ho hd hml hdl
    simp [runHooks, epochE, stepsE, stepE, get_lossE, hm, ho, hd, hml, hdl,
      Bind.bind, Except.bind]
  · intro p f hm ho hd hml hg
    simp [runHooks, epochE, stepsE, stepE, get_lossE, hm, ho, hd, hml, hg,
      Bind.bind, Except.bind]
  · intro p f hm ho hd hml hg hu
    simp [runHooks, epochE, stepsE, stepE, get_lossE, hm, ho, hd, hml, hg, hu,
      Bind.bind, Except.bind]
  · simp [runHooks, epochE, baseHooks, Bind.bind, Except.bind]

/-- A trainer overriding only `mode`. -/
def hooksThroughMode : Hooks :=
  { baseHooks with mode := Except.ok () }

/-- A trainer overriding `mode` and `define_optimizer`. -/
def hooksThroughOptimizer : Hooks :=
  { hooksThroughMode with define_optimizer := Except.ok () }

/-- A trainer also overriding `data_forward`. -/
def hooksThroughForward : Hooks :=
  { hooksThroughOptimizer with data_forward := Except.ok 1 }

/-- A trainer whose model additionally exposes its own `loss`. -/
def hooksThroughLoss : Hooks :=
  { hooksThroughForward with model_loss := some (fun a b => a + b) }

/-- A trainer also overriding `grad_backward`, leaving only `update` (and
`define_loss`) at the base implementation. -/
def hooksThroughBackward : Hooks :=
  { hooksThroughLoss with grad_backward := fun _ => Except.ok () }

/-- Witness for claim C7: six concrete trainers, each overriding every hook
that runs before the one it leaves at the base implementation, all abort with
`NotImplementedError`; so does the all-base table. -/
theorem unoverridden_hook_aborts_witness :
    runHooks baseHooks 0 1 1 none = Except.error HookError.notImplemented ∧
    runHooks hooksThroughMode 0 1 1 none =
      Except.error HookError.notImplemented ∧
    runHooks hooksThroughOptimizer 0 1 1 none =
      Except.error HookError.notImplemented ∧
    runHooks hooksThroughForward 0 1 1 none =
      Except.error HookError.notImplemented ∧
    runHooks hooksThroughLoss 0 1 1 none =
      Except.error HookError.notImplemented ∧
    runHooks hooksThroughBackward 0 1 1 none =
      Except.error HookError.notImplemented :=
  ⟨(unoverridden_hook_aborts baseHooks 0 1 0 none).1 rfl,
   (unoverridden_hook_aborts hooksThroughMode 0 1 0 none).2.1 rfl rfl,
   (unoverridden_hook_aborts hooksThroughOptimizer 0 0 0 none).2.2.1
      rfl rfl rfl,
   (unoverridden_hook_aborts hooksThroughForward 0 0 0 none).2.2.2.1
      1 rfl rfl rfl rfl rfl,
   (unoverridden_hook_aborts hooksThroughLoss 0 0 0 none).2.2.2.2.1
      1 (fun a b => a + b) rfl rfl rfl rfl (fun _ => rfl),
   (unoverridden_hook_aborts hooksThroughBackward 0 0 0 none).2.2.2.2.2.1
      1 (fun a b => a + b) rfl rfl rfl rfl rfl rfl⟩

/-! ### Artifact loading: `prepare_input` (lines 107-115 and 275-281)

`BaseTrainer.prepare_input(data_path)` opens, in order,
`data_path + "data_train.pkl"`, `data_path + "data_dev.pkl"`,
`data_path + "data_test.pkl"`, `data_path + "embedding.pkl"` (plain string
concatenation, no path separator inserted) and returns the four unpickled
values.  `POSTrainer.prepare_input(data_path)` — the override actually used by
the concrete sequence-tagging trainer, whose docstring still reads
"To do: Load pkl files of train/dev/test and embedding" — opens
`data_path + "/data_train.pkl"` twice, binding the SAME train artifact to both
`data_train` and `data_dev`, and returns the constants `0` and `1` in place of
a test set and an embedding.  Only the file paths are modelled; blob contents
are external. -/

/-- The file paths `BaseTrainer.prepare_input` reads, in order. -/
def basePrepareInputPaths (data_path : String) : List String :=
  [data_path ++ "data_train.pkl", data_path ++ "data_dev.pkl",
   data_path ++ "data_test.pkl", data_path ++ "embedding.pkl"]

/-- The file paths `POSTrainer.prepare_input` reads, in order (both loads name
the train artifact; no test-set or embedding file is ever opened). -/
def posPrepareInputPaths (data_path : String) : List String :=
  [data_path ++ "/data_train.pkl", data_path ++ "/data_train.pkl"]

/-- The four artifact paths the claim describes: the configured base path
joined (with a separator) to each conventional file name. -/
def claimedArtifactPaths (data_path : String) : List String :=
  [data_path ++ "/data_train.pkl", data_path ++ "/data_dev.pkl",
   data_path ++ "/data_test.pkl", data_path ++ "/embedding.pkl"]

/-- Claim C8 (code_bug evidence): at base path `"pkl"`, the `POSTrainer`
override of `prepare_input` reads the train artifact twice and never reads a
dev, test or embedding artifact, and the `BaseTrainer` version concatenates the
base path with the file names without a separator; neither loads the four
distinct artifacts `{pickle_path}/data_train.*`, `{pickle_path}/data_dev.*`,
`{pickle_path}/data_test.*`, `{pickle_path}/embedding.*` the claim requires. -/
theorem prepare_input_paths_diverge :
    posPrepareInputPaths "pkl" = ["pkl/data_train.pkl", "pkl/data_train.pkl"] ∧
    "pkl/data_dev.pkl" ∉ posPrepareInputPaths "pkl" ∧
    "pkl/data_test.pkl" ∉ posPrepareInputPaths "pkl" ∧
    "pkl/embedding.pkl" ∉ posPrepareInputPaths "pkl" ∧
    posPrepareInputPaths "pkl" ≠ claimedArtifactPaths "pkl" ∧
    basePrepareInputPaths "pkl" =
      ["pkldata_train.pkl", "pkldata_dev.pkl", "pkldata_test.pkl",
       "pklembedding.pkl"] ∧
    basePrepareInputPaths "pkl" ≠ claimedArtifactPaths "pkl" := by
  refine ⟨by decide, by decide, by decide, by decide, by decide, by decide,
    by decide⟩

end FastNLP
